import Mathlib

/-!
Verification of the SEICTL node lifecycle orchestrator.

Shallow embedding of the Go sources: strings are modelled as `List Char`,
Go maps as association lists (iteration order made explicit as list order),
and effectful operations as pure functions over explicit state/oracles that
also record the trace of actions they perform.
-/

namespace SEICTL

/-- Characters treated as whitespace by Go's `strings.TrimSpace`
(`unicode.IsSpace` restricted to the Latin-1 range: space, \t, \n, \v, \f,
\r, U+0085, U+00A0). -/
def goIsSpace (c : Char) : Bool :=
  c == ' ' || c == '\t' || c == '\n' || c == Char.ofNat 0x0B ||
  c == Char.ofNat 0x0C || c == '\r' || c == Char.ofNat 0x85 || c == Char.ofNat 0xA0

/-- Go `strings.TrimSpace`: drop whitespace from both ends. -/
def goTrimSpace (s : List Char) : List Char :=
  ((s.dropWhile goIsSpace).reverse.dropWhile goIsSpace).reverse

/-- Go `strings.HasPrefix`. -/
def goStartsWith (s pre : List Char) : Bool :=
  pre.isPrefixOf s

/-- Go `strings.TrimPrefix`: remove `pre` from the front of `s` when present,
otherwise return `s` unchanged. -/
def goTrimLeading (s pre : List Char) : List Char :=
  if goStartsWith s pre then s.drop pre.length else s

/-- Go `strings.Split(s, "\n")`: split into lines at every newline; the
result always has at least one element. -/
def splitNewline : List Char → List (List Char)
  | [] => [[]]
  | c :: cs =>
    if c == '\n' then [] :: splitNewline cs
    else
      match splitNewline cs with
      | t :: ts => (c :: t) :: ts
      | [] => [[c]]

/-- Go `strings.Join(lines, "\n")`. -/
def joinNewline : List (List Char) → List Char
  | [] => []
  | [l] => l
  | l :: ls => l ++ '\n' :: joinNewline ls

/-- Go `strings.Split(s, " ")`: split at every single space character. -/
def splitSpace : List Char → List (List Char)
  | [] => [[]]
  | c :: cs =>
    if c == ' ' then [] :: splitSpace cs
    else
      match splitSpace cs with
      | t :: ts => (c :: t) :: ts
      | [] => [[c]]

/-- Hexadecimal digits accepted by Go's `hex.DecodeString`. -/
def isHexDigitChar (c : Char) : Bool :=
  (decide ('0' ≤ c) && decide (c ≤ '9')) ||
  (decide ('a' ≤ c) && decide (c ≤ 'f')) ||
  (decide ('A' ≤ c) && decide (c ≤ 'F'))

/-- Success condition of Go's `hex.DecodeString`: even length and every
character a hexadecimal digit. -/
def hexDecodeOk (s : List Char) : Bool :=
  s.length % 2 == 0 && s.all isHexDigitChar

/-- ASCII lower-casing of a character (Go `strings.ToLower` restricted to
ASCII, which covers hex digit strings). -/
def toLowerChar (c : Char) : Char :=
  if decide ('A' ≤ c) && decide (c ≤ 'Z') then Char.ofNat (c.toNat + 32) else c

/-- ASCII lower-casing of a string. -/
def toLowerStr (s : List Char) : List Char :=
  s.map toLowerChar

/-- Embedding of `isValidHash` (state manager): strip an optional `0x`
prefix, require length exactly 64, and require `hex.DecodeString` to
succeed. -/
def isValidHash (hash : List Char) : Bool :=
  let h := goTrimLeading hash ['0', 'x']
  if h.length ≠ 64 then false
  else hexDecodeOk h

/-- Pattern that `updateConfig` scans for: the line's trimmed form must
start with the key followed by a space and an equals sign. -/
def matchesKey (line key : List Char) : Bool :=
  goStartsWith (goTrimSpace line) (key ++ [' ', '='])

/-- Replacement line produced by `updateConfig`: the key, an equals sign,
and the value, single-space separated. -/
def replLine (key value : List Char) : List Char :=
  key ++ [' ', '=', ' '] ++ value

/-- Embedding of the line loop of `updateConfig` (state manager): replace
the first line whose trimmed form starts with the key pattern, leaving all
other lines untouched; `break` after the first replacement. -/
def updateConfigLines (key value : List Char) : List (List Char) → List (List Char)
  | [] => []
  | l :: ls =>
    if matchesKey l key then replLine key value :: ls
    else l :: updateConfigLines key value ls

/-- Embedding of `updateConfig` (state manager): split the document on
newlines, patch the first matching line, and re-join. -/
def updateConfig (content key value : List Char) : List Char :=
  joinNewline (updateConfigLines key value (splitNewline content))

/-- Sequential application of an update map, as done by `setupStateSync`
and `UpdatePruning`; the list order models one iteration order of the Go
map (Go map iteration order is unspecified). -/
def applyUpdates (us : List (List Char × List Char)) (content : List Char) : List Char :=
  us.foldl (fun c kv => updateConfig c kv.1 kv.2) content

/-- Embedding of `types.ChainConfig` (the fields the verified operations
read). -/
structure ChainConfig where
  ChainID : String
  Version : String
  RPCEndpoints : List String
  GenesisURL : String
  BinaryURL : String
  BinaryChecksumURL : String
deriving DecidableEq, Repr

/-- Go zero value of `ChainConfig`, produced by indexing a map at a missing
key. -/
def ChainConfig.zero : ChainConfig :=
  ⟨"", "", [], "", "", ""⟩

instance : Inhabited ChainConfig := ⟨ChainConfig.zero⟩

/-- Embedding of `types.Config`; `Environments` is a Go map, modelled as an
association list whose order stands for one (unspecified) iteration
order. -/
structure Config where
  Environments : List (String × ChainConfig)
deriving DecidableEq, Repr

/-- Go map read `m.config.Environments[k]` without the `ok` check: the zero
value is returned for a missing key. -/
def goMapGet (m : List (String × ChainConfig)) (k : String) : ChainConfig :=
  (((m.find? (fun e => e.1 == k)).map (fun e => e.2)).getD ChainConfig.zero)

/-- Embedding of the `Block` trust-anchor record (state manager). -/
structure Block where
  Height : Int
  Hash : String
deriving DecidableEq, Repr

/-- Embedding of the `NodeStatus` record (state manager). -/
structure NodeStatus where
  Syncing : Bool
  LatestHeight : Int
deriving DecidableEq, Repr

/-- Endpoint flattening performed by `fetchTrustBlockAutomatic`: append
every environment's endpoint list (the `len > 0` guard of the source kept
verbatim). -/
def flattenRPCEndpoints (cfg : Config) : List String :=
  cfg.Environments.foldl
    (fun acc e => if e.2.RPCEndpoints.length > 0 then acc ++ e.2.RPCEndpoints else acc) []

/-- Endpoint loop of `fetchTrustBlockAutomatic`, instrumented with the list
of endpoints actually queried. `query` abstracts `queryBlockFromRPC`
(network I/O): `some b` models HTTP 200 with a decodable block response,
`none` any failure (network error, non-200 status, decode or parse
error). -/
def fetchTrustBlockAutoLoop (query : String → Int → Option Block) (height : Int) :
    List String → List String × Except String Block
  | [] => ([], Except.error "failed to fetch trust block from any configured RPC endpoint")
  | e :: rest =>
    match query e height with
    | some b => ([e], Except.ok b)
    | none =>
      let r := fetchTrustBlockAutoLoop query height rest
      (e :: r.1, r.2)

/-- Embedding of `fetchTrustBlockAutomatic` (state manager), instrumented
with the queried-endpoint trace. -/
def fetchTrustBlockAutomatic (query : String → Int → Option Block) (cfg : Config)
    (height : Int) : List String × Except String Block :=
  let rpcEndpoints := flattenRPCEndpoints cfg
  if rpcEndpoints.length = 0 then ([], Except.error "no RPC endpoints configured")
  else fetchTrustBlockAutoLoop query height rpcEndpoints

/-- Embedding of `fetchTrustBlock` (state manager): try the automatic path;
on any error switch to interactive mode. `interactive` abstracts the
outcome of `fetchTrustBlockInteractive` (stdin I/O); the returned boolean
records whether interactive mode was entered. -/
def fetchTrustBlock (query : String → Int → Option Block)
    (interactive : Except String Block) (cfg : Config) (height : Int) :
    Bool × Except String Block :=
  match (fetchTrustBlockAutomatic query cfg height).2 with
  | Except.ok b => (false, Except.ok b)
  | Except.error _ => (true, interactive)

/-- Embedding of `verifyChecksum` (binary manager), after the checksum file
body has been fetched and the binary's SHA-256 digest recomputed: the
expected value is the first token of `strings.Split(body, " ")`, compared
by exact string equality; `digest` is the `hex.EncodeToString` rendering
(lowercase) of the recomputed hash. -/
def verifyChecksum (checksumBody digest : List Char) : Except (List Char) Unit :=
  let expectedChecksum := (splitSpace checksumBody).headD []
  if digest = expectedChecksum then Except.ok ()
  else
    Except.error ("checksum mismatch: expected ".data ++ expectedChecksum ++
      ", got ".data ++ digest)

/-- Expected digest as the specification words it: the checksum file's
first whitespace-delimited token. -/
def specFirstWhitespaceToken (body : List Char) : List Char :=
  (body.dropWhile goIsSpace).takeWhile (fun c => !goIsSpace c)

/-- Case-insensitive digest comparison as the specification words it. -/
def specChecksumMatches (body digest : List Char) : Bool :=
  toLowerStr digest == toLowerStr (specFirstWhitespaceToken body)

/-- Oracle for the effectful steps of `downloadAndInstall`:
`binaryDownloadOk` models the binary `downloadFile` call, `checksumBody`
the checksum download (`none` = download failed), `digest` the recomputed
SHA-256 of the downloaded file rendered in lowercase hex, and
`chmodOk`/`renameOk` the two filesystem calls. -/
structure DownloadOracle where
  binaryDownloadOk : Bool
  checksumBody : Option (List Char)
  digest : List Char
  chmodOk : Bool
  renameOk : Bool

/-- Embedding of `downloadAndInstall` (binary manager); the boolean records
whether the binary was installed (the `os.Rename` into the final path ran
and succeeded). -/
def downloadAndInstall (o : DownloadOracle) : Bool × Except (List Char) Unit :=
  if !o.binaryDownloadOk then (false, Except.error "failed to download binary".data)
  else
    match o.checksumBody with
    | none => (false, Except.error "checksum verification failed".data)
    | some body =>
      match verifyChecksum body o.digest with
      | Except.error e =>
        (false, Except.error ("checksum verification failed: ".data ++ e))
      | Except.ok _ =>
        if !o.chmodOk then (false, Except.error "failed to make binary executable".data)
        else if !o.renameOk then
          (false, Except.error "failed to move binary to final location".data)
        else (true, Except.ok ())

/-- URL templates read by `downloadAndInstall`: both are taken from the
`"mainnet"` entry of the environments map, with Go zero-value semantics on
a missing key. -/
def downloadTemplates (cfg : Config) : String × String :=
  ((goMapGet cfg.Environments "mainnet").BinaryURL,
   (goMapGet cfg.Environments "mainnet").BinaryChecksumURL)

/-- URL templates used when `InitChain` for `env` reaches the download path
(`EnsureBinary` with a not-yet-installed version): `InitChain` first
resolves `env` with an `ok` check (`none` = "environment not found"), then
`downloadAndInstall` reads the `"mainnet"` templates. -/
def initChainDownloadTemplates (cfg : Config) (env : String) : Option (String × String) :=
  match cfg.Environments.find? (fun e => e.1 == env) with
  | none => none
  | some _ => some (downloadTemplates cfg)

/-- Presence of the snapshot-relevant files, as seen by the `os.Stat` calls
of `RestoreSnapshot`: the two required artifacts at the snapshot path and
the optional wasm archive. -/
structure SnapshotFS where
  dataTarGz : Bool
  privValidatorState : Bool
  wasmTarGz : Bool
deriving DecidableEq, Repr

/-- Outcomes of the fallible effectful steps of `RestoreSnapshot`
(process control, filesystem, tar invocations). -/
structure RestoreOracle where
  stopOk : Bool
  backupOk : Bool
  removeDataOk : Bool
  mkdirDataOk : Bool
  extractDataOk : Bool
  removeWasmOk : Bool
  mkdirWasmOk : Bool
  extractWasmOk : Bool
deriving DecidableEq, Repr

/-- Effectful actions attempted by `RestoreSnapshot`, in the order they are
issued to the OS. -/
inductive RestoreAction where
  | stopNode
  | backupCurrentState
  | removeDataDir
  | mkdirDataDir
  | extractData
  | removeWasmDir
  | mkdirWasmDir
  | extractWasm
deriving DecidableEq, Repr

/-- Actions that mutate or destroy live node state (directory removal and
archive extraction into live directories); stopping the node and writing a
backup copy are not destructive to the data being protected. -/
def RestoreAction.destructive : RestoreAction → Bool
  | RestoreAction.removeDataDir => true
  | RestoreAction.extractData => true
  | RestoreAction.removeWasmDir => true
  | RestoreAction.extractWasm => true
  | _ => false

/-- Whether an operation result is an error. -/
def exceptFailed : Except String Unit → Bool
  | Except.error _ => true
  | Except.ok _ => false

/-- Embedding of `verifySnapshot` (state manager): both required files must
exist; the loop reports the first missing one. -/
def verifySnapshot (fs : SnapshotFS) : Except String Unit :=
  if !fs.dataTarGz then Except.error "required file missing: data.tar.gz"
  else if !fs.privValidatorState then
    Except.error "required file missing: priv_validator_state.json"
  else Except.ok ()

/-- Embedding of `restoreData` (state manager): clear the live data
directory, recreate it, extract the archive; every step is attempted in
order until one fails. -/
def restoreData (o : RestoreOracle) : List RestoreAction × Except String Unit :=
  if !o.removeDataOk then
    ([RestoreAction.removeDataDir], Except.error "failed to clear existing data")
  else if !o.mkdirDataOk then
    ([RestoreAction.removeDataDir, RestoreAction.mkdirDataDir],
     Except.error "failed to create data directory")
  else if !o.extractDataOk then
    ([RestoreAction.removeDataDir, RestoreAction.mkdirDataDir, RestoreAction.extractData],
     Except.error "failed to extract data")
  else
    ([RestoreAction.removeDataDir, RestoreAction.mkdirDataDir, RestoreAction.extractData],
     Except.ok ())

/-- Embedding of `restoreWasm` (state manager), same shape as
`restoreData` for the wasm directory. -/
def restoreWasm (o : RestoreOracle) : List RestoreAction × Except String Unit :=
  if !o.removeWasmOk then
    ([RestoreAction.removeWasmDir], Except.error "failed to clear existing wasm")
  else if !o.mkdirWasmOk then
    ([RestoreAction.removeWasmDir, RestoreAction.mkdirWasmDir],
     Except.error "failed to create wasm directory")
  else if !o.extractWasmOk then
    ([RestoreAction.removeWasmDir, RestoreAction.mkdirWasmDir, RestoreAction.extractWasm],
     Except.error "failed to extract wasm")
  else
    ([RestoreAction.removeWasmDir, RestoreAction.mkdirWasmDir, RestoreAction.extractWasm],
     Except.ok ())

/-- Embedding of `RestoreSnapshot` (state manager), instrumented with the
trace of attempted effectful actions: verify the snapshot, stop the node,
back up the current state, restore data, and restore wasm when the
snapshot carries a wasm archive; each failure aborts with a wrapped
error. -/
def RestoreSnapshot (fs : SnapshotFS) (o : RestoreOracle) :
    List RestoreAction × Except String Unit :=
  match verifySnapshot fs with
  | Except.error e => ([], Except.error ("snapshot verification failed: " ++ e))
  | Except.ok _ =>
    if !o.stopOk then ([RestoreAction.stopNode], Except.error "failed to stop node")
    else if !o.backupOk then
      ([RestoreAction.stopNode, RestoreAction.backupCurrentState],
       Except.error "failed to backup current state")
    else
      let pre := [RestoreAction.stopNode, RestoreAction.backupCurrentState]
      match restoreData o with
      | (t, Except.error e) => (pre ++ t, Except.error ("failed to restore data: " ++ e))
      | (t, Except.ok _) =>
        if fs.wasmTarGz then
          match restoreWasm o with
          | (tw, Except.error e) =>
            (pre ++ t ++ tw, Except.error ("failed to restore wasm: " ++ e))
          | (tw, Except.ok _) => (pre ++ t ++ tw, Except.ok ())
        else (pre ++ t, Except.ok ())

/-- Embedding of the `MonitorStateSync` loop (state manager). Tick `i`
first observes the cancellation signal (`ctx.Done`), then polls
`getNodeStatus` (`poll i = none` models a failed poll, which is logged and
skipped). `fuel` bounds the unfolding: `none` means the loop is still
running after `fuel` ticks. -/
def monitorStateSync (cancelled : Nat → Bool) (poll : Nat → Option NodeStatus) :
    Nat → Nat → Option (Except String Unit)
  | _, 0 => none
  | i, fuel + 1 =>
    if cancelled i then some (Except.error "context canceled")
    else
      match poll i with
      | none => monitorStateSync cancelled poll (i + 1) fuel
      | some status =>
        if status.Syncing then monitorStateSync cancelled poll (i + 1) fuel
        else some (Except.ok ())

/-- Values of the `map[string]interface{}` node-config templates. Go maps
are reference values: a nested map is a reference into a heap, so copying
an outer map entry copies the reference, not the nested map. -/
inductive TomlVal where
  | str : String → TomlVal
  | bool : Bool → TomlVal
  | mapRef : Nat → TomlVal
deriving DecidableEq, Repr

/-- Entries of one Go `map[string]interface{}` (iteration order made
explicit). -/
abbrev TomlMap := List (String × TomlVal)

/-- Heap of nested maps; a `TomlVal.mapRef r` points at index `r`. -/
abbrev TomlHeap := List TomlMap

/-- Dereference a nested-map reference. -/
def heapGet (h : TomlHeap) (r : Nat) : TomlMap :=
  List.getD h r []

/-- In-place mutation of the nested map behind reference `r`. -/
def heapSet (h : TomlHeap) (r : Nat) (m : TomlMap) : TomlHeap :=
  List.set h r m

/-- Go map assignment `m[k] = v`: overwrite the existing entry or add a new
one. -/
def mapSet (m : TomlMap) (k : String) (v : TomlVal) : TomlMap :=
  match m with
  | [] => [(k, v)]
  | e :: es => if e.1 == k then (k, v) :: es else e :: mapSet es k v

/-- Go map read `m[k]` as an option. -/
def mapLookup (m : TomlMap) (k : String) : Option TomlVal :=
  (List.find? (fun e => e.1 == k) m).map (fun e => e.2)

/-- Embedding of `chain.InitOptions`. -/
structure InitOptions where
  SkipBinary : Bool
  Moniker : String
  ChainID : String
  WithStateSync : Bool
deriving DecidableEq, Repr

/-- Embedding of `configureNode` (chain manager) over the heap model:
`configTomlTemplate` is the shared `m.config.NodeConfigs.ConfigToml`. The
source copies the outer map entry-wise ("deep copies" per its comment, but
nested map references are shared), overlays `chain_id` and `moniker` on the
copy, and, when state sync is requested, asserts `configToml["statesync"]`
to a nested map: when the assertion succeeds it mutates that shared nested
map in place, otherwise it allocates a fresh nested map. Returns the heap
after the call and the copied outer map. -/
def configureNode (heap : TomlHeap) (configTomlTemplate : TomlMap)
    (cfg : ChainConfig) (opts : InitOptions) : TomlHeap × TomlMap :=
  let configToml := configTomlTemplate
  let configToml := mapSet configToml "chain_id" (TomlVal.str cfg.ChainID)
  let configToml :=
    if opts.Moniker ≠ "" then mapSet configToml "moniker" (TomlVal.str opts.Moniker)
    else configToml
  if opts.WithStateSync then
    match mapLookup configToml "statesync" with
    | some (TomlVal.mapRef r) =>
      (heapSet heap r (mapSet (heapGet heap r) "enable" (TomlVal.bool true)), configToml)
    | _ =>
      let r := heap.length
      (heap ++ [[("enable", TomlVal.bool true)]],
       mapSet configToml "statesync" (TomlVal.mapRef r))
  else (heap, configToml)

/-! Theorems settling the claims about the embedded operations. -/

/-- C9: hash validation accepts exactly the strings that, after removal of
an optional `0x` prefix, consist of exactly 64 hexadecimal characters;
every string whose stripped length differs from 64, or that contains a
non-hexadecimal character, is rejected. -/
theorem isValidHash_iff_64_hex (s : List Char) :
    isValidHash s = true ↔
      (goTrimLeading s ['0', 'x']).length = 64 ∧
        ∀ c ∈ goTrimLeading s ['0', 'x'], isHexDigitChar c = true := by
  simp only [isValidHash, hexDecodeOk]
  by_cases hl : (goTrimLeading s ['0', 'x']).length = 64
  · simp [hl, List.all_eq_true]
  · simp [hl]

/-- C2: the claim that `InitChain` never mutates the shared configuration
fails on the code. `configureNode` copies the `ConfigToml` template only
shallowly (despite its own "deep copies" comment), so a state-sync-enabled
initialization against a template that already carries a `statesync`
section sets `enable = true` inside the nested map shared with the
configuration object: the shared template's `statesync` section changes
from `enable = false` to `enable = true`. -/
theorem configureNode_mutates_shared_statesync :
    heapGet (configureNode [[("enable", TomlVal.bool false)]]
        [("statesync", TomlVal.mapRef 0)] ChainConfig.zero
        ⟨true, "node", "", true⟩).1 0 = [("enable", TomlVal.bool true)] ∧
      heapGet [[("enable", TomlVal.bool false)]] 0 = [("enable", TomlVal.bool false)] := by
  constructor <;> rfl

/-- C10: whenever `InitChain` for any environment reaches the download
path, the binary and checksum URL templates are read from the `"mainnet"`
environment, independently of the requested environment; a configuration
with no `"mainnet"` entry yields the zero value, i.e. empty template
strings. -/
theorem initChain_download_templates_mainnet (cfg : Config) (env1 env2 : String)
    (t1 t2 : String × String)
    (h1 : initChainDownloadTemplates cfg env1 = some t1)
    (h2 : initChainDownloadTemplates cfg env2 = some t2) :
    t1 = t2 ∧ t1 = downloadTemplates cfg ∧
      (cfg.Environments.find? (fun e => e.1 == "mainnet") = none → t1 = ("", "")) := by
  unfold initChainDownloadTemplates at h1 h2
  have e1 : t1 = downloadTemplates cfg := by
    cases hf : cfg.Environments.find? (fun e => e.1 == env1) with
    | none => rw [hf] at h1; cases h1
    | some v => rw [hf] at h1; cases h1; rfl
  have e2 : t2 = downloadTemplates cfg := by
    cases hf : cfg.Environments.find? (fun e => e.1 == env2) with
    | none => rw [hf] at h2; cases h2
    | some v => rw [hf] at h2; cases h2; rfl
  refine ⟨e1.trans e2.symm, e1, fun hnone => ?_⟩
  rw [e1]
  unfold downloadTemplates goMapGet
  rw [hnone]
  rfl

/-- Witness for C10 at a concrete configuration without a `"mainnet"`
environment. -/
theorem initChain_download_templates_mainnet_witness :
    (("", "") : String × String) = ("", "") ∧
      (("", "") : String × String) =
        downloadTemplates ⟨[("testnet", ChainConfig.zero)]⟩ ∧
      ((Config.Environments ⟨[("testnet", ChainConfig.zero)]⟩).find?
          (fun e => e.1 == "mainnet") = none → (("", "") : String × String) = ("", "")) :=
  initChain_download_templates_mainnet ⟨[("testnet", ChainConfig.zero)]⟩
    "testnet" "testnet" ("", "") ("", "") rfl rfl

/-- C1: the claim that an empty flattened endpoint collection makes
trust-anchor resolution fail without interactive fallback is refuted by the
code: with a single environment whose endpoint list is empty, the automatic
path fails with the configuration error, after which `fetchTrustBlock`
switches to interactive mode and returns the interactively entered
anchor. -/
theorem fetchTrustBlock_empty_endpoints_counterexample :
    flattenRPCEndpoints ⟨[("mainnet", ChainConfig.zero)]⟩ = [] ∧
      fetchTrustBlock (fun _ _ => none) (Except.ok ⟨12345, "ab"⟩)
        ⟨[("mainnet", ChainConfig.zero)]⟩ 100 = (true, Except.ok ⟨12345, "ab"⟩) :=
  ⟨rfl, rfl⟩

/-- C1 (amended): if every configured environment has an empty RPC endpoint
list, the automatic path of trust-anchor resolution fails with the
configuration error "no RPC endpoints configured" without querying any
endpoint, and `fetchTrustBlock` then falls back to interactive operator
prompting — the same fallback as for any other automatic failure — and
returns the interactive outcome. -/
theorem fetchTrustBlock_empty_endpoints (query : String → Int → Option Block)
    (interactive : Except String Block) (cfg : Config) (height : Int)
    (h : flattenRPCEndpoints cfg = []) :
    fetchTrustBlockAutomatic query cfg height =
        ([], Except.error "no RPC endpoints configured") ∧
      fetchTrustBlock query interactive cfg height = (true, interactive) := by
  have h1 : fetchTrustBlockAutomatic query cfg height =
      ([], Except.error "no RPC endpoints configured") := by
    unfold fetchTrustBlockAutomatic
    rw [h]
    rfl
  refine ⟨h1, ?_⟩
  unfold fetchTrustBlock
  rw [h1]

/-- Witness for C1 (amended) at a concrete all-empty configuration. -/
theorem fetchTrustBlock_empty_endpoints_witness :
    fetchTrustBlockAutomatic (fun _ _ => none)
        ⟨[("mainnet", ChainConfig.zero), ("testnet", ChainConfig.zero)]⟩ 7 =
        ([], Except.error "no RPC endpoints configured") ∧
      fetchTrustBlock (fun _ _ => none) (Except.error "invalid height input")
        ⟨[("mainnet", ChainConfig.zero), ("testnet", ChainConfig.zero)]⟩ 7 =
        (true, Except.error "invalid height input") :=
  fetchTrustBlock_empty_endpoints (fun _ _ => none) (Except.error "invalid height input")
    ⟨[("mainnet", ChainConfig.zero), ("testnet", ChainConfig.zero)]⟩ 7 rfl

/-- Helper for C4: the endpoint loop stops at the first successful query,
having queried exactly the failing prefix and the successful endpoint. -/
theorem fetchTrustBlockAutoLoop_first_success (query : String → Int → Option Block)
    (height : Int) (pre : List String) (e : String) (post : List String) (b : Block)
    (hpre : ∀ x ∈ pre, query x height = none) (he : query e height = some b) :
    fetchTrustBlockAutoLoop query height (pre ++ e :: post) = (pre ++ [e], Except.ok b) := by
  induction pre with
  | nil => simp [fetchTrustBlockAutoLoop, he]
  | cons a as ih =>
    have ha : query a height = none := hpre a (by simp)
    have ih2 := ih (fun x hx => hpre x (by simp [hx]))
    simp [fetchTrustBlockAutoLoop, ha, ih2]

/-- C4: for a non-empty flattened endpoint collection, if every endpoint
before `e` fails and `e` yields a decodable block, automatic trust-anchor
resolution returns the anchor from `e` and the set of queried endpoints is
exactly the failing prefix followed by `e` — no endpoint after `e` is
queried. -/
theorem fetchTrustBlockAutomatic_first_success (query : String → Int → Option Block)
    (cfg : Config) (height : Int) (pre : List String) (e : String)
    (post : List String) (b : Block)
    (hflat : flattenRPCEndpoints cfg = pre ++ e :: post)
    (hpre : ∀ x ∈ pre, query x height = none) (he : query e height = some b) :
    fetchTrustBlockAutomatic query cfg height = (pre ++ [e], Except.ok b) := by
  unfold fetchTrustBlockAutomatic
  rw [hflat, if_neg (by simp)]
  exact fetchTrustBlockAutoLoop_first_success query height pre e post b hpre he

/-- Witness for C4: two endpoints, the first fails and the second succeeds;
the third is never queried. -/
theorem fetchTrustBlockAutomatic_first_success_witness :
    fetchTrustBlockAutomatic
        (fun ep _ => if ep = "http://rpc-b" then some ⟨1000000, "aabb"⟩ else none)
        ⟨[("testnet", ⟨"test-1", "v1", ["http://rpc-a", "http://rpc-b", "http://rpc-c"],
          "", "", ""⟩)]⟩ 1000000 =
      (["http://rpc-a", "http://rpc-b"], Except.ok ⟨1000000, "aabb"⟩) :=
  fetchTrustBlockAutomatic_first_success
    (fun ep _ => if ep = "http://rpc-b" then some ⟨1000000, "aabb"⟩ else none)
    ⟨[("testnet", ⟨"test-1", "v1", ["http://rpc-a", "http://rpc-b", "http://rpc-c"],
      "", "", ""⟩)]⟩ 1000000
    ["http://rpc-a"] "http://rpc-b" ["http://rpc-c"] ⟨1000000, "aabb"⟩
    rfl (by intro x hx; simp at hx; subst hx; rfl) rfl

/-- C3: the claim that the digest comparison is case-insensitive is refuted
by the code: for a checksum file holding the uppercase rendering of the
digest, the case-insensitive comparison of the specification accepts, but
`verifyChecksum` compares exact strings and fails, and the download path
discards the binary without installing it. -/
theorem verifyChecksum_case_sensitive_counterexample :
    specChecksumMatches (List.replicate 64 'A' ++ " seid".data) (List.replicate 64 'a') =
        true ∧
      verifyChecksum (List.replicate 64 'A' ++ " seid".data) (List.replicate 64 'a') =
        Except.error ("checksum mismatch: expected ".data ++ List.replicate 64 'A' ++
          ", got ".data ++ List.replicate 64 'a') ∧
      downloadAndInstall
          ⟨true, some (List.replicate 64 'A' ++ " seid".data), List.replicate 64 'a',
            true, true⟩ =
        (false, Except.error ("checksum verification failed: ".data ++
          "checksum mismatch: expected ".data ++ List.replicate 64 'A' ++
          ", got ".data ++ List.replicate 64 'a')) := by
  refine ⟨by decide, by rfl, by rfl⟩

/-- C3 (amended): during binary download-and-install, the recomputed
SHA-256 digest (rendered in lowercase hex) is compared by exact,
case-sensitive string equality against the expected digest taken from the
checksum file's first space-delimited token; on mismatch the operation
fails with a checksum-mismatch error reporting expected versus actual, and
the binary is not installed. -/
theorem downloadAndInstall_checksum_mismatch (o : DownloadOracle) (body : List Char)
    (hdl : o.binaryDownloadOk = true) (hcs : o.checksumBody = some body) :
    (verifyChecksum body o.digest = Except.ok () ↔
        o.digest = (splitSpace body).headD []) ∧
      (o.digest ≠ (splitSpace body).headD [] →
        downloadAndInstall o =
          (false, Except.error ("checksum verification failed: ".data ++
            "checksum mismatch: expected ".data ++ (splitSpace body).headD [] ++
            ", got ".data ++ o.digest))) := by
  constructor
  · unfold verifyChecksum
    by_cases h : o.digest = (splitSpace body).headD [] <;> simp [h]
  · intro hne
    unfold downloadAndInstall
    rw [hdl, hcs]
    simp only [Bool.not_true, Bool.false_eq_true, if_false]
    unfold verifyChecksum
    rw [if_neg hne]
    rfl

/-- Witness for C3 (amended): a one-character digest difference is
rejected with the expected-versus-actual message and nothing is
installed. -/
theorem downloadAndInstall_checksum_mismatch_witness :
    (verifyChecksum "abc1 seid".data "abc2".data = Except.ok () ↔
        ("abc2".data : List Char) = (splitSpace "abc1 seid".data).headD []) ∧
      (("abc2".data : List Char) ≠ (splitSpace "abc1 seid".data).headD [] →
        downloadAndInstall ⟨true, some "abc1 seid".data, "abc2".data, true, true⟩ =
          (false, Except.error ("checksum verification failed: ".data ++
            "checksum mismatch: expected ".data ++ (splitSpace "abc1 seid".data).headD [] ++
            ", got ".data ++ "abc2".data))) :=
  downloadAndInstall_checksum_mismatch
    ⟨true, some "abc1 seid".data, "abc2".data, true, true⟩ "abc1 seid".data rfl rfl

/-- C5: if a required snapshot file is absent, `RestoreSnapshot` fails
having attempted no action at all — in particular nothing destructive; and
whenever the live data directory removal is attempted, snapshot
verification has passed and the node stop and the current-state backup have
both succeeded, in exactly that order, before it. -/
theorem RestoreSnapshot_safe_ordering (fs : SnapshotFS) (o : RestoreOracle) :
    ((fs.dataTarGz = false ∨ fs.privValidatorState = false) →
        (RestoreSnapshot fs o).1 = [] ∧
          exceptFailed (RestoreSnapshot fs o).2 = true ∧
          ∀ a ∈ (RestoreSnapshot fs o).1, a.destructive = false) ∧
      (RestoreAction.removeDataDir ∈ (RestoreSnapshot fs o).1 →
        fs.dataTarGz = true ∧ fs.privValidatorState = true ∧
          o.stopOk = true ∧ o.backupOk = true ∧
          (RestoreSnapshot fs o).1.take 3 =
            [RestoreAction.stopNode, RestoreAction.backupCurrentState,
              RestoreAction.removeDataDir]) := by
  obtain ⟨d, p, w⟩ := fs
  obtain ⟨s, b, rd, md, ed, rw2, mw, ew⟩ := o
  revert d p w s b rd md ed rw2 mw ew
  decide

/-- Witness for C5: a missing `data.tar.gz` aborts with no action, and a
complete run reaches the destructive phase only after stop and backup. -/
theorem RestoreSnapshot_safe_ordering_witness :
    (((false : Bool) = false ∨ (true : Bool) = false) →
        (RestoreSnapshot ⟨false, true, false⟩ ⟨true, true, true, true, true, true, true, true⟩).1 = [] ∧
          exceptFailed (RestoreSnapshot ⟨false, true, false⟩ ⟨true, true, true, true, true, true, true, true⟩).2 = true ∧
          ∀ a ∈ (RestoreSnapshot ⟨false, true, false⟩ ⟨true, true, true, true, true, true, true, true⟩).1,
            a.destructive = false) ∧
      (RestoreAction.removeDataDir ∈
          (RestoreSnapshot ⟨false, true, false⟩ ⟨true, true, true, true, true, true, true, true⟩).1 →
        (false : Bool) = true ∧ (true : Bool) = true ∧ (true : Bool) = true ∧ (true : Bool) = true ∧
          (RestoreSnapshot ⟨false, true, false⟩ ⟨true, true, true, true, true, true, true, true⟩).1.take 3 =
            [RestoreAction.stopNode, RestoreAction.backupCurrentState,
              RestoreAction.removeDataDir]) :=
  RestoreSnapshot_safe_ordering ⟨false, true, false⟩ ⟨true, true, true, true, true, true, true, true⟩

/-- Helper for C6: the monitoring loop reports success within `fuel` ticks
exactly when some tick polls a status that is no longer catching up, with
every earlier tick neither cancelled nor decisively polled. -/
theorem monitorStateSync_ok_iff (cancelled : Nat → Bool) (poll : Nat → Option NodeStatus) :
    ∀ fuel i, monitorStateSync cancelled poll i fuel = some (Except.ok ()) ↔
      ∃ j, j < fuel ∧ cancelled (i + j) = false ∧
        (∃ s, poll (i + j) = some s ∧ s.Syncing = false) ∧
        ∀ k, k < j → cancelled (i + k) = false ∧
          ∀ s, poll (i + k) = some s → s.Syncing = true := by
  intro fuel
  induction fuel with
  | zero =>
    intro i
    simp [monitorStateSync]
  | succ fuel ih =>
    intro i
    by_cases hc : cancelled i = true
    · simp only [monitorStateSync, hc, if_true]
      constructor
      · intro h
        cases h
      · rintro ⟨j, _, hcj, _, hall⟩
        cases j with
        | zero => rw [Nat.add_zero] at hcj; rw [hc] at hcj; cases hcj
        | succ j2 =>
          have h0 := (hall 0 (Nat.succ_pos j2)).1
          rw [Nat.add_zero] at h0
          rw [hc] at h0
          cases h0
    · have hcf : cancelled i = false := by
        cases h : cancelled i
        · rfl
        · exact absurd h hc
      have shift : ∀ (hnd : ∀ s, poll i = some s → s.Syncing = true),
          ((∃ j, j < fuel + 1 ∧ cancelled (i + j) = false ∧
            (∃ s, poll (i + j) = some s ∧ s.Syncing = false) ∧
            ∀ k, k < j → cancelled (i + k) = false ∧
              ∀ s, poll (i + k) = some s → s.Syncing = true) ↔
          (∃ j, j < fuel ∧ cancelled (i + 1 + j) = false ∧
            (∃ s, poll (i + 1 + j) = some s ∧ s.Syncing = false) ∧
            ∀ k, k < j → cancelled (i + 1 + k) = false ∧
              ∀ s, poll (i + 1 + k) = some s → s.Syncing = true)) := by
        intro hnd
        constructor
        · rintro ⟨j, hj, hcj, ⟨s, hs, hsync⟩, hall⟩
          cases j with
          | zero =>
            rw [Nat.add_zero] at hs
            rw [hnd s hs] at hsync
            cases hsync
          | succ j2 =>
            refine ⟨j2, by omega, ?_, ⟨s, ?_, hsync⟩, ?_⟩
            · have : i + 1 + j2 = i + (j2 + 1) := by omega
              rw [this]; exact hcj
            · have : i + 1 + j2 = i + (j2 + 1) := by omega
              rw [this]; exact hs
            · intro k hk
              have : i + 1 + k = i + (k + 1) := by omega
              rw [this]
              exact hall (k + 1) (by omega)
        · rintro ⟨j, hj, hcj, ⟨s, hs, hsync⟩, hall⟩
          refine ⟨j + 1, by omega, ?_, ⟨s, ?_, hsync⟩, ?_⟩
          · have : i + (j + 1) = i + 1 + j := by omega
            rw [this]; exact hcj
          · have : i + (j + 1) = i + 1 + j := by omega
            rw [this]; exact hs
          · intro k hk
            cases k with
            | zero =>
              rw [Nat.add_zero]
              exact ⟨hcf, hnd⟩
            | succ k2 =>
              have : i + (k2 + 1) = i + 1 + k2 := by omega
              rw [this]
              exact hall k2 (by omega)
      cases hp : poll i with
      | none =>
        have hstep : monitorStateSync cancelled poll i (fuel + 1) =
            monitorStateSync cancelled poll (i + 1) fuel := by
          simp [monitorStateSync, hcf, hp]
        rw [hstep, ih (i + 1)]
        exact (shift (fun s hs => by rw [hp] at hs; cases hs)).symm
      | some s0 =>
        cases hsync0 : s0.Syncing with
        | true =>
          have hstep : monitorStateSync cancelled poll i (fuel + 1) =
              monitorStateSync cancelled poll (i + 1) fuel := by
            simp [monitorStateSync, hcf, hp, hsync0]
          rw [hstep, ih (i + 1)]
          refine (shift (fun s hs => ?_)).symm
          rw [hp] at hs
          cases hs
          exact hsync0
        | false =>
          have hstep : monitorStateSync cancelled poll i (fuel + 1) =
              some (Except.ok ()) := by
            simp [monitorStateSync, hcf, hp, hsync0]
          rw [hstep]
          constructor
          · intro _
            exact ⟨0, by omega, by rw [Nat.add_zero]; exact hcf,
              ⟨s0, by rw [Nat.add_zero]; exact hp, hsync0⟩, by omega⟩
          · intro _
            rfl

/-- C6: in the sync monitoring loop a failed status poll never terminates
the loop (the tick falls through to the next one), cancellation observed at
a tick makes the loop return the cancellation error, and the loop returns
success exactly when some tick polls a node status that is no longer
catching up, no earlier tick having been cancelled or having polled a
completed status. -/
theorem MonitorStateSync_loop_behavior (cancelled : Nat → Bool)
    (poll : Nat → Option NodeStatus) (i fuel : Nat) :
    (cancelled i = false → poll i = none →
        monitorStateSync cancelled poll i (fuel + 1) =
          monitorStateSync cancelled poll (i + 1) fuel) ∧
      (cancelled i = true →
        monitorStateSync cancelled poll i (fuel + 1) =
          some (Except.error "context canceled")) ∧
      (monitorStateSync cancelled poll i fuel = some (Except.ok ()) ↔
        ∃ j, j < fuel ∧ cancelled (i + j) = false ∧
          (∃ s, poll (i + j) = some s ∧ s.Syncing = false) ∧
          ∀ k, k < j → cancelled (i + k) = false ∧
            ∀ s, poll (i + k) = some s → s.Syncing = true) := by
  refine ⟨?_, ?_, monitorStateSync_ok_iff cancelled poll fuel i⟩
  · intro h1 h2
    simp [monitorStateSync, h1, h2]
  · intro h1
    simp [monitorStateSync, h1]

/-- Witness for C6: a failed first poll continues the loop, and a cancelled
tick aborts with the cancellation error. -/
theorem MonitorStateSync_loop_behavior_witness :
    monitorStateSync (fun _ => false) (fun _ => none) 0 3 =
        monitorStateSync (fun _ => false) (fun _ => none) 1 2 ∧
      monitorStateSync (fun _ => true) (fun _ => none) 0 3 =
        some (Except.error "context canceled") :=
  ⟨(MonitorStateSync_loop_behavior (fun _ => false) (fun _ => none) 0 2).1 rfl rfl,
   (MonitorStateSync_loop_behavior (fun _ => true) (fun _ => none) 0 2).2.1 rfl⟩

/-- Joining a document whose first line starts with a character peels that
character off the front. -/
theorem joinNewline_cons_cons (c : Char) (t : List Char) (ts : List (List Char)) :
    joinNewline ((c :: t) :: ts) = c :: joinNewline (t :: ts) := by
  cases ts <;> simp [joinNewline]

/-- Splitting on newlines always yields at least one line. -/
theorem splitNewline_ne_nil (s : List Char) : splitNewline s ≠ [] := by
  cases s with
  | nil => simp [splitNewline]
  | cons c cs =>
    simp only [splitNewline]
    by_cases hc : (c == '\n') = true
    · simp [hc]
    · rw [if_neg hc]
      cases h : splitNewline cs <;> simp

/-- Joining the newline-split of a document restores the document
byte-for-byte. -/
theorem joinNewline_splitNewline (s : List Char) : joinNewline (splitNewline s) = s := by
  induction s with
  | nil => rfl
  | cons c cs ih =>
    simp only [splitNewline]
    by_cases hc : (c == '\n') = true
    · rw [if_pos hc]
      have hc2 : c = '\n' := by simpa using hc
      cases h : splitNewline cs with
      | nil => exact absurd h (splitNewline_ne_nil cs)
      | cons t ts =>
        have ih2 : joinNewline (t :: ts) = cs := h ▸ ih
        have hj : joinNewline ([] :: t :: ts) = '\n' :: joinNewline (t :: ts) := by
          simp [joinNewline]
        rw [hj, ih2, hc2]
    · rw [if_neg hc]
      cases h : splitNewline cs with
      | nil => exact absurd h (splitNewline_ne_nil cs)
      | cons t ts =>
        have ih2 : joinNewline (t :: ts) = cs := h ▸ ih
        show joinNewline ((c :: t) :: ts) = c :: cs
        rw [joinNewline_cons_cons, ih2]

/-- C7: the config patcher replaces only the first line matching the key
pattern (earlier non-matching lines and everything after the first match,
later occurrences of the key included, are kept verbatim), it changes no
line when no line matches, it never changes the number of lines, and a
document with no matching line is returned byte-identical — no line is
appended for an absent key. -/
theorem updateConfig_first_match_only (key value : List Char) :
    (∀ pre l post, (∀ x ∈ pre, matchesKey x key = false) → matchesKey l key = true →
        updateConfigLines key value (pre ++ l :: post) =
          pre ++ replLine key value :: post) ∧
      (∀ ls, (∀ x ∈ ls, matchesKey x key = false) → updateConfigLines key value ls = ls) ∧
      (∀ ls, (updateConfigLines key value ls).length = ls.length) ∧
      (∀ content, (∀ x ∈ splitNewline content, matchesKey x key = false) →
        updateConfig content key value = content) := by
  have h2 : ∀ ls, (∀ x ∈ ls, matchesKey x key = false) →
      updateConfigLines key value ls = ls := by
    intro ls
    induction ls with
    | nil => intro _; rfl
    | cons a as ih =>
      intro h
      have ha : matchesKey a key = false := h a (by simp)
      simp only [updateConfigLines, ha, Bool.false_eq_true, if_false]
      rw [ih (fun x hx => h x (by simp [hx]))]
  refine ⟨?_, h2, ?_, ?_⟩
  · intro pre l post hpre hl
    induction pre with
    | nil => simp [updateConfigLines, hl]
    | cons a as ih =>
      have ha : matchesKey a key = false := hpre a (by simp)
      have ih2 := ih (fun x hx => hpre x (by simp [hx]))
      show updateConfigLines key value (a :: (as ++ l :: post)) =
        a :: (as ++ replLine key value :: post)
      simp only [updateConfigLines, ha, Bool.false_eq_true, if_false]
      rw [ih2]
  · intro ls
    induction ls with
    | nil => rfl
    | cons a as ih =>
      by_cases ha : matchesKey a key = true
      · simp [updateConfigLines, ha]
      · have ha2 : matchesKey a key = false := by
          cases h : matchesKey a key
          · rfl
          · exact absurd h ha
        simp [updateConfigLines, ha2, ih]
  · intro content h
    unfold updateConfig
    rw [h2 _ h, joinNewline_splitNewline]

/-- Witness for C7: a comment line is preserved, the first matching line is
replaced while a later occurrence is kept, and a document without the key
is returned unchanged. -/
theorem updateConfig_first_match_only_witness :
    updateConfigLines "statesync.enable".data "true".data
        ["# sync".data, "statesync.enable = false".data, "statesync.enable = no".data] =
      ["# sync".data] ++ replLine "statesync.enable".data "true".data ::
        ["statesync.enable = no".data] ∧
      updateConfig "moniker = a\npersistent_peers = b".data
          "statesync.enable".data "true".data =
        "moniker = a\npersistent_peers = b".data :=
  ⟨(updateConfig_first_match_only "statesync.enable".data "true".data).1
      ["# sync".data] "statesync.enable = false".data ["statesync.enable = no".data]
      (by decide) (by decide),
   (updateConfig_first_match_only "statesync.enable".data "true".data).2.2.2
      "moniker = a\npersistent_peers = b".data (by decide)⟩

/-- Index of the first element satisfying `p`, mirroring the scan order of
the `updateConfig` loop. -/
def firstIdx {α : Type} (p : α → Bool) : List α → Option Nat
  | [] => none
  | a :: as => if p a then some 0 else (firstIdx p as).map (fun n => n + 1)

/-- A scan finds nothing exactly when no element satisfies `p`. -/
theorem firstIdx_eq_none_iff {α : Type} (p : α → Bool) (D : List α) :
    firstIdx p D = none ↔ ∀ x ∈ D, p x = false := by
  induction D with
  | nil => simp [firstIdx]
  | cons a as ih =>
    by_cases ha : p a = true
    · simp [firstIdx, ha]
    · have ha2 : p a = false := by
        cases h : p a
        · rfl
        · exact absurd h ha
      simp [firstIdx, ha2, ih]

/-- Elimination form: the first matching index holds a matching element,
and everything before it fails `p`. -/
theorem firstIdx_eq_some_elim {α : Type} (p : α → Bool) (D : List α) (i : Nat)
    (h : firstIdx p D = some i) :
    (∃ x, D[i]? = some x ∧ p x = true) ∧
      ∀ j, j < i → ∀ y, D[j]? = some y → p y = false := by
  induction D generalizing i with
  | nil => cases h
  | cons a as ih =>
    by_cases ha : p a = true
    · rw [firstIdx, if_pos ha] at h
      cases h
      refine ⟨⟨a, by simp, ha⟩, fun j hj => absurd hj (by omega)⟩
    · have ha2 : p a = false := by
        cases hx : p a
        · rfl
        · exact absurd hx ha
      rw [firstIdx, if_neg ha] at h
      cases hr : firstIdx p as with
      | none => rw [hr] at h; cases h
      | some i2 =>
        rw [hr] at h
        have hi : i = i2 + 1 := by
          have := h
          simp [Option.map] at this
          omega
        subst hi
        obtain ⟨⟨x, hx, hpx⟩, hbefore⟩ := ih i2 hr
        refine ⟨⟨x, by rw [List.getElem?_cons_succ]; exact hx, hpx⟩, ?_⟩
        intro j hj y hy
        cases j with
        | zero =>
          rw [List.getElem?_cons_zero] at hy
          cases hy
          exact ha2
        | succ j2 =>
          rw [List.getElem?_cons_succ] at hy
          exact hbefore j2 (by omega) y hy

/-- Introduction form: a matching element all of whose predecessors fail
`p` is the first match. -/
theorem firstIdx_eq_some_intro {α : Type} (p : α → Bool) (D : List α) (i : Nat) (x : α)
    (hx : D[i]? = some x) (hpx : p x = true)
    (hbefore : ∀ j, j < i → ∀ y, D[j]? = some y → p y = false) :
    firstIdx p D = some i := by
  induction D generalizing i with
  | nil => cases hx
  | cons a as ih =>
    cases i with
    | zero =>
      rw [List.getElem?_cons_zero] at hx
      cases hx
      rw [firstIdx, if_pos hpx]
    | succ i2 =>
      have ha : p a = false := by
        refine hbefore 0 (by omega) a ?_
        rw [List.getElem?_cons_zero]
      rw [firstIdx, if_neg (by rw [ha]; intro hc; cases hc)]
      rw [List.getElem?_cons_succ] at hx
      have hr := ih i2 hx
        (fun j hj y hy =>
          hbefore (j + 1) (by omega) y (by rw [List.getElem?_cons_succ]; exact hy))
      rw [hr]
      rfl

/-- Setting an index to the value it already holds leaves the list
unchanged. -/
theorem set_getElem?_self {α : Type} (D : List α) (i : Nat) (a : α)
    (h : D[i]? = some a) : D.set i a = D := by
  induction D generalizing i with
  | nil => rfl
  | cons b bs ih =>
    cases i with
    | zero =>
      rw [List.getElem?_cons_zero] at h
      cases h
      rfl
    | succ i2 =>
      rw [List.getElem?_cons_succ] at h
      show b :: bs.set i2 a = b :: bs
      rw [ih i2 h]

/-- The patch loop, rephrased through `firstIdx`: it is the identity when
no line matches, and otherwise overwrites exactly the first matching
index. -/
theorem updateConfigLines_eq_set (key value : List Char) (D : List (List Char)) :
    updateConfigLines key value D =
      match firstIdx (fun l => matchesKey l key) D with
      | none => D
      | some i => D.set i (replLine key value) := by
  induction D with
  | nil => rfl
  | cons a as ih =>
    by_cases ha : matchesKey a key = true
    · simp [updateConfigLines, firstIdx, ha]
    · have ha2 : matchesKey a key = false := by
        cases h : matchesKey a key
        · rfl
        · exact absurd h ha
      simp only [updateConfigLines, firstIdx, ha2, Bool.false_eq_true, if_false]
      rw [ih]
      cases hr : firstIdx (fun l => matchesKey l key) as <;> simp [hr]

/-- Patching never changes the number of lines. -/
theorem updateConfigLines_length (k v : List Char) (D : List (List Char)) :
    (updateConfigLines k v D).length = D.length := by
  rw [updateConfigLines_eq_set]
  cases hr : firstIdx (fun l => matchesKey l k) D with
  | none => rfl
  | some i => exact List.length_set D i (replLine k v)

/-- Sequential application of an update map at the line level (the body of
the `setupStateSync` loop before re-joining). -/
def applyUpdatesLines (us : List (List Char × List Char)) (D : List (List Char)) :
    List (List Char) :=
  us.foldl (fun d kv => updateConfigLines kv.1 kv.2 d) D

/-- The first line matching `k`, if any, already carries exactly the
replacement that patching with `(k, v)` would write. -/
def KeyInvariant (k v : List Char) (D : List (List Char)) : Prop :=
  ∀ i, firstIdx (fun l => matchesKey l k) D = some i → D[i]? = some (replLine k v)

/-- A document satisfying the key invariant is a fixed point of the
patch. -/
theorem updateConfigLines_of_invariant (k v : List Char) (D : List (List Char))
    (h : KeyInvariant k v D) : updateConfigLines k v D = D := by
  rw [updateConfigLines_eq_set]
  cases hr : firstIdx (fun l => matchesKey l k) D with
  | none => rfl
  | some i => exact set_getElem?_self D i _ (h i hr)

/-- Patching with `(k, v)` establishes the key invariant for `(k, v)`,
provided the replacement line matches its own key pattern. -/
theorem keyInvariant_after_update (k v : List Char) (D : List (List Char))
    (hself : matchesKey (replLine k v) k = true) :
    KeyInvariant k v (updateConfigLines k v D) := by
  rw [updateConfigLines_eq_set]
  cases hr : firstIdx (fun l => matchesKey l k) D with
  | none =>
    intro i hi
    exact absurd (hr ▸ hi : (none : Option Nat) = some i).symm (by simp)
  | some i0 =>
    intro i hi
    obtain ⟨⟨x, hx, hpx⟩, hbefore⟩ := firstIdx_eq_some_elim _ D i0 hr
    have hlen : i0 < D.length := (List.getElem?_eq_some_iff.mp hx).1
    have hD2 : (D.set i0 (replLine k v))[i0]? = some (replLine k v) :=
      List.getElem?_set_self hlen
    have hfirst : firstIdx (fun l => matchesKey l k) (D.set i0 (replLine k v)) = some i0 :=
      firstIdx_eq_some_intro _ _ i0 _ hD2 hself
        (fun j hj y hy =>
          hbefore j hj y (by rwa [List.getElem?_set_ne (by omega)] at hy))
    rw [hfirst] at hi
    cases hi
    exact hD2

/-- Patching with a non-interfering other entry preserves the key
invariant: the other entry's replacement matches neither direction of the
pair's patterns. -/
theorem keyInvariant_preserved (k v k2 v2 : List Char) (D : List (List Char))
    (hinv : KeyInvariant k v D)
    (hc1 : matchesKey (replLine k2 v2) k = false)
    (hc2 : matchesKey (replLine k v) k2 = false) :
    KeyInvariant k v (updateConfigLines k2 v2 D) := by
  rw [updateConfigLines_eq_set]
  cases hr2 : firstIdx (fun l => matchesKey l k2) D with
  | none => exact hinv
  | some j =>
    intro i hi
    obtain ⟨⟨y, hyj, hpy⟩, hbefore2⟩ := firstIdx_eq_some_elim _ D j hr2
    have hlenj : j < D.length := (List.getElem?_eq_some_iff.mp hyj).1
    cases hr : firstIdx (fun l => matchesKey l k) D with
    | none =>
      exfalso
      obtain ⟨⟨x, hx, hpx⟩, _⟩ := firstIdx_eq_some_elim _ _ i hi
      by_cases hij : j = i
      · subst hij
        rw [List.getElem?_set_self hlenj] at hx
        cases hx
        rw [hc1] at hpx
        cases hpx
      · rw [List.getElem?_set_ne hij] at hx
        have hall := (firstIdx_eq_none_iff _ D).mp hr x (List.getElem?_mem hx)
        rw [hall] at hpx
        cases hpx
    | some i0 =>
      have hri : D[i0]? = some (replLine k v) := hinv i0 hr
      obtain ⟨⟨x0, hx0, hpx0⟩, hbefore⟩ := firstIdx_eq_some_elim _ D i0 hr
      have hx0e : x0 = replLine k v := by
        rw [hri] at hx0
        cases hx0
        rfl
      have hji0 : j ≠ i0 := by
        intro he
        subst he
        rw [hri] at hyj
        cases hyj
        rw [hc2] at hpy
        cases hpy
      have hD2 : (D.set j (replLine k2 v2))[i0]? = some (replLine k v) := by
        rw [List.getElem?_set_ne hji0]
        exact hri
      have hfirst : firstIdx (fun l => matchesKey l k)
          (D.set j (replLine k2 v2)) = some i0 := by
        refine firstIdx_eq_some_intro _ _ i0 _ hD2 (hx0e ▸ hpx0) ?_
        intro j2 hj2 y2 hy2
        by_cases hj2j : j = j2
        · subst hj2j
          rw [List.getElem?_set_self hlenj] at hy2
          cases hy2
          exact hc1
        · rw [List.getElem?_set_ne hj2j] at hy2
          exact hbefore j2 hj2 y2 hy2
      rw [hfirst] at hi
      cases hi
      exact hD2

/-- The key invariant survives a whole list of non-interfering updates. -/
theorem keyInvariant_preserved_fold (k v : List Char)
    (us : List (List Char × List Char)) :
    ∀ D, KeyInvariant k v D →
      (∀ kv2 ∈ us, matchesKey (replLine kv2.1 kv2.2) k = false ∧
        matchesKey (replLine k v) kv2.1 = false) →
      KeyInvariant k v (applyUpdatesLines us D) := by
  induction us with
  | nil => intro D hinv _; exact hinv
  | cons kv2 rest ih =>
    intro D hinv hcond
    show KeyInvariant k v (applyUpdatesLines rest (updateConfigLines kv2.1 kv2.2 D))
    exact ih (updateConfigLines kv2.1 kv2.2 D)
      (keyInvariant_preserved k v kv2.1 kv2.2 D hinv
        (hcond kv2 (by simp)).1 (hcond kv2 (by simp)).2)
      (fun kv3 h3 => hcond kv3 (by simp [h3]))

/-- One full pass of a non-interfering update map with distinct keys
establishes the key invariant for every entry. -/
theorem keyInvariant_all (us : List (List Char × List Char)) :
    ∀ D, (us.map (fun kv => kv.1)).Nodup →
      (∀ kv ∈ us, matchesKey (replLine kv.1 kv.2) kv.1 = true) →
      (∀ kv ∈ us, ∀ kv2 ∈ us, kv.1 ≠ kv2.1 →
        matchesKey (replLine kv.1 kv.2) kv2.1 = false) →
      ∀ kv ∈ us, KeyInvariant kv.1 kv.2 (applyUpdatesLines us D) := by
  induction us with
  | nil => intro D _ _ _ kv h; cases h
  | cons kv0 rest ih =>
    intro D hnodup hself hcross kv hkv
    have hnd : kv0.1 ∉ rest.map (fun kv => kv.1) ∧
        (rest.map (fun kv => kv.1)).Nodup := by
      rw [List.map_cons] at hnodup
      exact List.nodup_cons.mp hnodup
    show KeyInvariant kv.1 kv.2 (applyUpdatesLines rest (updateConfigLines kv0.1 kv0.2 D))
    rcases List.mem_cons.mp hkv with heq | hmem
    · subst heq
      refine keyInvariant_preserved_fold kv.1 kv.2 rest _
        (keyInvariant_after_update kv.1 kv.2 D (hself kv (by simp))) ?_
      intro kv2 h2
      have hne : kv2.1 ≠ kv.1 := by
        intro he
        exact hnd.1 (List.mem_map.mpr ⟨kv2, h2, he⟩)
      exact ⟨hcross kv2 (by simp [h2]) kv (by simp) hne,
        hcross kv (by simp) kv2 (by simp [h2]) (fun he => hne he.symm)⟩
    · exact ih (updateConfigLines kv0.1 kv0.2 D) hnd.2
        (fun kv2 h2 => hself kv2 (by simp [h2]))
        (fun kv2 h2 kv3 h3 hne => hcross kv2 (by simp [h2]) kv3 (by simp [h3]) hne)
        kv hmem

/-- A document satisfying the key invariant for every entry is a fixed
point of the whole update pass. -/
theorem applyUpdatesLines_fixed (us : List (List Char × List Char)) :
    ∀ D, (∀ kv ∈ us, KeyInvariant kv.1 kv.2 D) → applyUpdatesLines us D = D := by
  induction us with
  | nil => intro D _; rfl
  | cons kv0 rest ih =>
    intro D hinv
    show applyUpdatesLines rest (updateConfigLines kv0.1 kv0.2 D) = D
    rw [updateConfigLines_of_invariant kv0.1 kv0.2 D (hinv kv0 (by simp))]
    exact ih D (fun kv h => hinv kv (by simp [h]))

/-- Line-level idempotence of a non-interfering update map with distinct
keys. -/
theorem applyUpdatesLines_idempotent (us : List (List Char × List Char))
    (D : List (List Char)) (hnodup : (us.map (fun kv => kv.1)).Nodup)
    (hself : ∀ kv ∈ us, matchesKey (replLine kv.1 kv.2) kv.1 = true)
    (hcross : ∀ kv ∈ us, ∀ kv2 ∈ us, kv.1 ≠ kv2.1 →
      matchesKey (replLine kv.1 kv.2) kv2.1 = false) :
    applyUpdatesLines us (applyUpdatesLines us D) = applyUpdatesLines us D :=
  applyUpdatesLines_fixed us (applyUpdatesLines us D)
    (keyInvariant_all us D hnodup hself hcross)

/-- Lines produced by splitting on newlines contain no newline. -/
theorem splitNewline_no_newline (s : List Char) : ∀ l ∈ splitNewline s, '\n' ∉ l := by
  induction s with
  | nil =>
    intro l hl
    simp only [splitNewline, List.mem_singleton] at hl
    subst hl
    simp
  | cons c cs ih =>
    intro l hl
    simp only [splitNewline] at hl
    by_cases hc : (c == '\n') = true
    · rw [if_pos hc] at hl
      rcases List.mem_cons.mp hl with h | h
      · subst h
        simp
      · exact ih l h
    · have hc2 : c ≠ '\n' := by
        intro he
        exact hc (by simp [he])
      rw [if_neg hc] at hl
      cases hsp : splitNewline cs with
      | nil => exact absurd hsp (splitNewline_ne_nil cs)
      | cons t ts =>
        rw [hsp] at hl
        rcases List.mem_cons.mp hl with h | h
        · subst h
          intro hm
          rcases List.mem_cons.mp hm with he | hm2
          · exact hc2 he.symm
          · exact ih t (by rw [hsp]; simp) hm2
        · exact ih l (by rw [hsp]; simp [h])

/-- A newline-free string splits to the single line it is. -/
theorem splitNewline_of_no_newline (l : List Char) (h : '\n' ∉ l) :
    splitNewline l = [l] := by
  induction l with
  | nil => rfl
  | cons c cs ih =>
    have hc : c ≠ '\n' := fun he => h (by simp [he])
    simp only [splitNewline]
    rw [if_neg (by simp [hc]), ih (fun hm => h (by simp [hm]))]

/-- Splitting a newline-free line glued with a newline onto a rest peels
the line off. -/
theorem splitNewline_append_newline (l rest : List Char) (h : '\n' ∉ l) :
    splitNewline (l ++ '\n' :: rest) = l :: splitNewline rest := by
  induction l with
  | nil =>
    show splitNewline ('\n' :: rest) = [] :: splitNewline rest
    simp only [splitNewline]
    rw [if_pos (by simp)]
  | cons c cs ih =>
    have hc : c ≠ '\n' := fun he => h (by simp [he])
    show splitNewline (c :: (cs ++ '\n' :: rest)) = (c :: cs) :: splitNewline rest
    simp only [splitNewline]
    rw [if_neg (by simp [hc]), ih (fun hm => h (by simp [hm]))]

/-- Splitting the join of a non-empty document of newline-free lines
restores the document. -/
theorem splitNewline_joinNewline (D : List (List Char)) :
    D ≠ [] → (∀ l ∈ D, '\n' ∉ l) → splitNewline (joinNewline D) = D := by
  induction D with
  | nil => intro hne _; exact absurd rfl hne
  | cons l ls ih =>
    intro _ hnl
    cases ls with
    | nil =>
      show splitNewline (joinNewline [l]) = [l]
      exact splitNewline_of_no_newline l (hnl l (by simp))
    | cons l2 ls2 =>
      have hj : joinNewline (l :: l2 :: ls2) = l ++ '\n' :: joinNewline (l2 :: ls2) := by
        simp [joinNewline]
      rw [hj, splitNewline_append_newline l _ (hnl l (by simp)),
        ih (by simp) (fun x hx => hnl x (by simp [hx]))]

/-- Patching with newline-free key and value keeps every line
newline-free. -/
theorem updateConfigLines_no_newline (k v : List Char) (hk : '\n' ∉ k) (hv : '\n' ∉ v) :
    ∀ D, (∀ l ∈ D, '\n' ∉ l) → ∀ l ∈ updateConfigLines k v D, '\n' ∉ l := by
  intro D
  induction D with
  | nil => intro _ l hl; cases hl
  | cons a as ih =>
    intro h l hl
    simp only [updateConfigLines] at hl
    by_cases ha : matchesKey a k = true
    · rw [if_pos ha] at hl
      rcases List.mem_cons.mp hl with he | hm
      · subst he
        intro hmem
        rcases List.mem_append.mp hmem with h1 | h1
        · rcases List.mem_append.mp h1 with h2 | h2
          · exact hk h2
          · exact absurd h2 (by decide)
        · exact hv h1
      · exact h l (by simp [hm])
    · rw [if_neg ha] at hl
      rcases List.mem_cons.mp hl with he | hm
      · subst he
        exact h l (by simp)
      · exact ih (fun x hx => h x (by simp [hx])) l hm

/-- Sequential patching of a join goes through the line level, provided the
document is non-empty with newline-free lines and the update map is
newline-free. -/
theorem applyUpdates_joinNewline (us : List (List Char × List Char)) :
    ∀ D, (∀ kv ∈ us, '\n' ∉ kv.1 ∧ '\n' ∉ kv.2) → D ≠ [] → (∀ l ∈ D, '\n' ∉ l) →
      applyUpdates us (joinNewline D) = joinNewline (applyUpdatesLines us D) := by
  induction us with
  | nil => intro D _ _ _; rfl
  | cons kv rest ih =>
    intro D hnl hne hnlD
    show applyUpdates rest (updateConfig (joinNewline D) kv.1 kv.2) =
      joinNewline (applyUpdatesLines rest (updateConfigLines kv.1 kv.2 D))
    have hstep : updateConfig (joinNewline D) kv.1 kv.2 =
        joinNewline (updateConfigLines kv.1 kv.2 D) := by
      unfold updateConfig
      rw [splitNewline_joinNewline D hne hnlD]
    rw [hstep]
    refine ih (updateConfigLines kv.1 kv.2 D) (fun kv2 h2 => hnl kv2 (by simp [h2])) ?_ ?_
    · intro hnil
      have hlen := updateConfigLines_length kv.1 kv.2 D
      rw [hnil] at hlen
      exact hne (List.eq_nil_of_length_eq_zero hlen.symm)
    · exact updateConfigLines_no_newline kv.1 kv.2
        (hnl kv (by simp)).1 (hnl kv (by simp)).2 D hnlD

/-- An update pass preserves the line count and newline-freeness of a
document. -/
theorem applyUpdatesLines_preserves (us : List (List Char × List Char)) :
    ∀ D, (∀ kv ∈ us, '\n' ∉ kv.1 ∧ '\n' ∉ kv.2) →
      (applyUpdatesLines us D).length = D.length ∧
        ((∀ l ∈ D, '\n' ∉ l) → ∀ l ∈ applyUpdatesLines us D, '\n' ∉ l) := by
  induction us with
  | nil => intro D _; exact ⟨rfl, fun h => h⟩
  | cons kv rest ih =>
    intro D hnl
    have ih2 := ih (updateConfigLines kv.1 kv.2 D) (fun kv2 h2 => hnl kv2 (by simp [h2]))
    constructor
    · show (applyUpdatesLines rest (updateConfigLines kv.1 kv.2 D)).length = D.length
      rw [ih2.1, updateConfigLines_length]
    · intro h
      exact ih2.2 (updateConfigLines_no_newline kv.1 kv.2
        (hnl kv (by simp)).1 (hnl kv (by simp)).2 D h)

/-- C8: the claim that the config patcher is idempotent for every document
and every update map is refuted on the code: with the interfering keys
`"a ="` and `"a"`, applying the same two updates twice to the document
`"a = = 0\na = = 0"` patches a second line that the first application left
untouched, so the second application is not the identity. -/
theorem applyUpdates_idempotent_counterexample :
    applyUpdates [("a =".data, "x".data), ("a".data, "x".data)]
        (applyUpdates [("a =".data, "x".data), ("a".data, "x".data)]
          "a = = 0\na = = 0".data) ≠
      applyUpdates [("a =".data, "x".data), ("a".data, "x".data)]
        "a = = 0\na = = 0".data := by
  decide

/-- C8 (amended): the config patcher is idempotent for every document and
every non-interfering update map: when the keys are pairwise distinct,
keys and values contain no newline, each entry's replacement line matches
its own key pattern, and no entry's replacement line matches a different
key of the map, applying the same updates twice yields a document
byte-identical to applying them once. (The update maps the program uses —
the `statesync.*` and pruning keys — satisfy these conditions.) -/
theorem applyUpdates_idempotent (us : List (List Char × List Char)) (content : List Char)
    (hnl : ∀ kv ∈ us, '\n' ∉ kv.1 ∧ '\n' ∉ kv.2)
    (hnodup : (us.map (fun kv => kv.1)).Nodup)
    (hself : ∀ kv ∈ us, matchesKey (replLine kv.1 kv.2) kv.1 = true)
    (hcross : ∀ kv ∈ us, ∀ kv2 ∈ us, kv.1 ≠ kv2.1 →
      matchesKey (replLine kv.1 kv.2) kv2.1 = false) :
    applyUpdates us (applyUpdates us content) = applyUpdates us content := by
  have hD0ne : splitNewline content ≠ [] := splitNewline_ne_nil content
  have hD0nl : ∀ l ∈ splitNewline content, '\n' ∉ l := splitNewline_no_newline content
  have hconv1 : applyUpdates us content =
      joinNewline (applyUpdatesLines us (splitNewline content)) := by
    conv_lhs => rw [← joinNewline_splitNewline content]
    exact applyUpdates_joinNewline us (splitNewline content) hnl hD0ne hD0nl
  have hpres := applyUpdatesLines_preserves us (splitNewline content) hnl
  have hD1ne : applyUpdatesLines us (splitNewline content) ≠ [] := by
    intro hnil
    have hlen := hpres.1
    rw [hnil] at hlen
    exact hD0ne (List.eq_nil_of_length_eq_zero hlen.symm)
  have hD1nl := hpres.2 hD0nl
  have hconv2 : applyUpdates us
      (joinNewline (applyUpdatesLines us (splitNewline content))) =
      joinNewline (applyUpdatesLines us (applyUpdatesLines us (splitNewline content))) :=
    applyUpdates_joinNewline us _ hnl hD1ne hD1nl
  rw [hconv1, hconv2, applyUpdatesLines_idempotent us _ hnodup hself hcross]

/-- Witness for C8 (amended): the state-sync style update map applied twice
to a config document equals one application. -/
theorem applyUpdates_idempotent_witness :
    applyUpdates
        [("statesync.enable".data, "true".data),
          ("statesync.trust_height".data, "100".data)]
        (applyUpdates
          [("statesync.enable".data, "true".data),
            ("statesync.trust_height".data, "100".data)]
          "statesync.enable = false\nstatesync.trust_height = 0\n# end".data) =
      applyUpdates
        [("statesync.enable".data, "true".data),
          ("statesync.trust_height".data, "100".data)]
        "statesync.enable = false\nstatesync.trust_height = 0\n# end".data :=
  applyUpdates_idempotent
    [("statesync.enable".data, "true".data),
      ("statesync.trust_height".data, "100".data)]
    "statesync.enable = false\nstatesync.trust_height = 0\n# end".data
    (by decide) (by decide) (by decide) (by decide)

end SEICTL
